import Mathlib

/-!
Verification of the mapgraphlib repository.

The repository contains three graph representations:
* the arena/index graph `Graph<N, E, directed, Ix>` (only forward-declared in
  `include/declarations.hpp`; its implementation is not in the source tree, so
  it is modelled from the spec below, in namespace `Arena`);
* the hash-map keyed `graph<K, V, EdgeCost>` (`include/Graph.hpp` and the second
  part of `include/declarations.hpp`), embedded in namespace `HashGraph`;
* the linked-list `Graph<T, is_directed>` (`include/graph.hpp`), embedded in
  namespace `ListGraph`, together with `algorithms/dijkstra.hpp`.

The event-driven DFS fragment of `tests/visiting.cpp` is embedded in namespace
`Dfs`.
-/

set_option autoImplicit false

namespace Arena

/-- Modelled from the spec: direction selector for the two adjacency-list roles
(`Outgoing`, `Ingoing`) of the arena graph, whose implementation is missing
from the source tree (only forward declarations and test callers exist). -/
inductive Dir where
  | outgoing
  | ingoing
deriving DecidableEq, Repr

/-- Modelled from the spec: a `Node` of the arena graph carries a payload and
two adjacency-list heads, one per direction; the sentinel "no edge" is
`none`. -/
structure ANode (N : Type) where
  weight : N
  headOut : Option Nat
  headIn : Option Nat
deriving DecidableEq, Repr

/-- Head of the node's adjacency list for a direction. -/
def ANode.head {N : Type} (nd : ANode N) : Dir → Option Nat
  | .outgoing => nd.headOut
  | .ingoing => nd.headIn

/-- Modelled from the spec: an `Edge` of the arena graph carries a payload, its
two endpoints and two "next" links threading it into its endpoints' adjacency
lists. -/
structure AEdge (E : Type) where
  weight : E
  source : Nat
  target : Nat
  nextOut : Option Nat
  nextIn : Option Nat
deriving DecidableEq, Repr

/-- Direction-specific "next" link of an edge. -/
def AEdge.next {E : Type} (e : AEdge E) : Dir → Option Nat
  | .outgoing => e.nextOut
  | .ingoing => e.nextIn

/-- The endpoint whose adjacency list the edge belongs to in a direction: the
source for the outgoing list, the target for the ingoing list. -/
def AEdge.endp {E : Type} (e : AEdge E) : Dir → Nat
  | .outgoing => e.source
  | .ingoing => e.target

/-- Modelled from the spec: the arena graph is an append-only sequence of nodes
and an append-only sequence of edges; array position = index. -/
structure AGraph (N E : Type) where
  nodes : List (ANode N)
  edges : List (AEdge E)
deriving DecidableEq, Repr

/-- Modelled from the spec: a graph starts empty. -/
def emptyGraph {N E : Type} : AGraph N E := ⟨[], []⟩

/-- Error kind of the arena graph interface (spec section 7). -/
inductive GraphError where
  | indexOutOfRange
deriving DecidableEq, Repr

/-- Modelled from the spec: `add_node` appends a node with both direction heads
set to the sentinel and returns its index; it never fails. -/
def add_node {N E : Type} (g : AGraph N E) (w : N) : AGraph N E × Nat :=
  ({ g with nodes := g.nodes ++ [(⟨w, none, none⟩ : ANode N)] }, g.nodes.length)

/-- Modelled from the spec: `add_edge` requires both indices to reference
existing nodes and fails with `IndexOutOfRange` otherwise; it threads the new
edge into the adjacency lists (each "next" link receives the value the
endpoint's head held immediately before, and the heads are updated to the new
edge; a self-loop updates both heads of its node) and returns the new edge's
index. -/
def add_edge {N E : Type} (g : AGraph N E) (s t : Nat) (w : E) :
    Except GraphError (AGraph N E × Nat) :=
  if h : s < g.nodes.length ∧ t < g.nodes.length then
    if s = t then
      .ok ({ nodes := g.nodes.set s
               { g.nodes.get ⟨s, h.1⟩ with
                 headOut := some g.edges.length, headIn := some g.edges.length },
             edges := g.edges ++ [⟨w, s, t, (g.nodes.get ⟨s, h.1⟩).headOut,
                                   (g.nodes.get ⟨s, h.1⟩).headIn⟩] },
            g.edges.length)
    else
      .ok ({ nodes := (g.nodes.set s
               { g.nodes.get ⟨s, h.1⟩ with headOut := some g.edges.length }).set t
               { g.nodes.get ⟨t, h.2⟩ with headIn := some g.edges.length },
             edges := g.edges ++ [⟨w, s, t, (g.nodes.get ⟨s, h.1⟩).headOut,
                                   (g.nodes.get ⟨t, h.2⟩).headIn⟩] },
            g.edges.length)
  else .error .indexOutOfRange

/-- Modelled from the spec: `clear` empties both arenas. -/
def clear {N E : Type} (_ : AGraph N E) : AGraph N E := ⟨[], []⟩

/-- Modelled from the spec: `node_count` equals the node arena length. -/
def node_count {N E : Type} (g : AGraph N E) : Nat := g.nodes.length

/-- Modelled from the spec: `edge_count` equals the edge arena length. -/
def edge_count {N E : Type} (g : AGraph N E) : Nat := g.edges.length

/-- Modelled from the spec: bounds-checked node payload access, failing with
`IndexOutOfRange` on an invalid handle. -/
def node_weight {N E : Type} (g : AGraph N E) (i : Nat) : Except GraphError N :=
  match g.nodes.get? i with
  | some nd => .ok nd.weight
  | none => .error .indexOutOfRange

/-- Modelled from the spec: bounds-checked edge payload access, failing with
`IndexOutOfRange` on an invalid handle. -/
def edge_weight {N E : Type} (g : AGraph N E) (i : Nat) : Except GraphError E :=
  match g.edges.get? i with
  | some e => .ok e.weight
  | none => .error .indexOutOfRange

/-- Head of node `n`'s adjacency list in direction `d` (sentinel if the node
does not exist). -/
def nodeHead {N : Type} (nodes : List (ANode N)) (n : Nat) (d : Dir) : Option Nat :=
  match nodes.get? n with
  | some nd => nd.head d
  | none => none

/-- The "next" link of edge `i` in direction `d` (sentinel if the edge does not
exist). -/
def edgeNext {E : Type} (es : List (AEdge E)) (i : Nat) (d : Dir) : Option Nat :=
  match es.get? i with
  | some e => e.next d
  | none => none

/-- Whether edge `i` is incident to node `n` in direction `d`, that is, belongs
to `n`'s adjacency list for `d`. -/
def incidentB {E : Type} (es : List (AEdge E)) (n : Nat) (d : Dir) (i : Nat) : Bool :=
  match es.get? i with
  | some e => e.endp d == n
  | none => false

/-- The indices `< k` of edges incident to `n` in direction `d`, most recently
inserted first (arena indices grow with insertion, so decreasing index order is
reverse insertion order). -/
def upTo {E : Type} (es : List (AEdge E)) (k n : Nat) (d : Dir) : List Nat :=
  ((List.range k).filter (incidentB es n d)).reverse

/-- All indices of edges incident to `n` in direction `d`, most recently
inserted first. -/
def incidentList {N E : Type} (g : AGraph N E) (n : Nat) (d : Dir) : List Nat :=
  upTo g.edges g.edges.length n d

/-- Modelled from the spec: the adjacency walk follows the linked list starting
at the node's head for the direction, advancing via each edge's "next" link for
the same direction until the sentinel; this version records the edge indices
visited (the walk of the spec yields the opposite endpoint of each such edge).
The fuel argument bounds the number of steps; `adjEdges` supplies enough fuel
for every graph reachable by the interface. -/
def walkFrom {E : Type} (es : List (AEdge E)) (d : Dir) : Nat → Option Nat → List Nat
  | _, none => []
  | 0, some _ => []
  | fuel + 1, some i => i :: walkFrom es d fuel (edgeNext es i d)

/-- The full adjacency walk of node `n` in direction `d`. -/
def adjEdges {N E : Type} (g : AGraph N E) (n : Nat) (d : Dir) : List Nat :=
  walkFrom g.edges d g.edges.length (nodeHead g.nodes n d)

/-- One interface call of the arena graph: `add_node`, `add_edge` or
`clear`. -/
inductive Op (N E : Type) where
  | addNode (w : N)
  | addEdge (s t : Nat) (w : E)
  | clearOp
deriving Repr

/-- State transition of one interface call (a failing `add_edge` leaves the
graph unchanged). -/
def applyOp {N E : Type} (g : AGraph N E) : Op N E → AGraph N E
  | .addNode w => (add_node g w).1
  | .addEdge s t w =>
    match add_edge g s t w with
    | .ok p => p.1
    | .error _ => g
  | .clearOp => clear g

/-- State after a sequence of interface calls. -/
def applyOps {N E : Type} (g : AGraph N E) (ops : List (Op N E)) : AGraph N E :=
  ops.foldl applyOp g

/-- Counter semantics of a call sequence: the pair (number of `add_node` calls
since the last `clear`, number of successful `add_edge` calls since the last
clear). Both counters reset to zero at each `clear`; the node counter grows at
each `add_node`; the edge counter grows at each `add_edge` whose two endpoints
are below the current node counter, i.e. at each `add_edge` call that
succeeds. -/
def countsAfter {N E : Type} : Nat × Nat → List (Op N E) → Nat × Nat
  | p, [] => p
  | p, .addNode _ :: r => countsAfter (p.1 + 1, p.2) r
  | p, .addEdge s t _ :: r =>
    countsAfter (p.1, if s < p.1 ∧ t < p.1 then p.2 + 1 else p.2) r
  | _, .clearOp :: r => countsAfter (0, 0) r

/-- One step of `sinceLastClear`: a `clear` call forgets everything before it,
any other call is kept. -/
def slcStep {N E : Type} (acc : List (Op N E)) (op : Op N E) : List (Op N E) :=
  match op with
  | .clearOp => []
  | o => acc ++ [o]

/-- The suffix of a call sequence issued since the last `clear` (the whole
sequence when it contains no `clear`). -/
def sinceLastClear {N E : Type} (ops : List (Op N E)) : List (Op N E) :=
  ops.foldl slcStep []

/-- Number of `add_edge` calls in a call sequence, successful or not. -/
def countAddEdgeCalls {N E : Type} (ops : List (Op N E)) : Nat :=
  (ops.filter fun op =>
    match op with
    | .addEdge _ _ _ => true
    | _ => false).length

/-- The linked-list invariants of the arena graph (spec section 3): every head
is the most recently inserted incident edge in its direction, every "next" link
is the value its endpoint's head held immediately before the edge was linked
in, and every stored endpoint references an existing node. -/
def linksInv {N E : Type} (g : AGraph N E) : Prop :=
  (∀ n d, nodeHead g.nodes n d = (incidentList g n d).head?) ∧
  (∀ i d e, g.edges.get? i = some e →
    e.next d = (upTo g.edges i (e.endp d) d).head?) ∧
  (∀ i e, g.edges.get? i = some e →
    e.source < g.nodes.length ∧ e.target < g.nodes.length)

end Arena

namespace Assoc

/-- Association-list lookup, first binding wins (embeds `std::map` /
`std::unordered_map` key lookup). -/
def alookup {K A : Type} [DecidableEq K] : List (K × A) → K → Option A
  | [], _ => none
  | (k, v) :: r, key => if k = key then some v else alookup r key

/-- Association-list update-or-append (embeds `map[key] = value`). -/
def aset {K A : Type} [DecidableEq K] : List (K × A) → K → A → List (K × A)
  | [], key, v => [(key, v)]
  | (k, w) :: r, key, v =>
    if k = key then (k, v) :: r else (k, w) :: aset r key v

end Assoc

namespace HashGraph

/-- The `Edge` record of `graph<K, V, EdgeCost>`: destination vertex and cost
(`EdgeCost = int` by default; the cost is unused by the searches). -/
structure HEdge (K : Type) where
  dest : K
  cost : Int
deriving DecidableEq, Repr

/-- The hash-map keyed graph: `_vertices` maps keys to values, `_edges` maps
each key to the vector of edges leaving it (vector order = insertion order). -/
structure HGraph (K V : Type) where
  vertices : List (K × V)
  edges : List (K × List (HEdge K))
deriving DecidableEq, Repr

/-- Whether a key is present among the vertices. -/
def containsKey {K V : Type} [DecidableEq K] (g : HGraph K V) (k : K) : Bool :=
  (Assoc.alookup g.vertices k).isSome

/-- `graph::insert`: inserts the pair if no vertex with that key exists yet. -/
def insert {K V : Type} [DecidableEq K] (g : HGraph K V) (kv : K × V) : HGraph K V :=
  if containsKey g kv.1 then g else { g with vertices := g.vertices ++ [kv] }

/-- Appends an edge to a key's adjacency vector, creating the entry if absent
(embeds `_edges[key].emplace_back(...)`). -/
def pushEdge {K : Type} [DecidableEq K] (es : List (K × List (HEdge K))) (k : K)
    (e : HEdge K) : List (K × List (HEdge K)) :=
  Assoc.aset es k ((Assoc.alookup es k).getD [] ++ [e])

/-- `graph::add_undirected_edge`: if both keys name existing vertices, append a
half-edge to each endpoint's vector; otherwise do nothing. -/
def add_undirected_edge {K V : Type} [DecidableEq K] (g : HGraph K V) (a b : K)
    (cost : Int) : HGraph K V :=
  if containsKey g a ∧ containsKey g b then
    { g with edges := pushEdge (pushEdge g.edges a ⟨b, cost⟩) b ⟨a, cost⟩ }
  else g

/-- The `npos` sentinel assigned to unreachable vertices
(`std::string::npos` with a 64-bit `size_type`). -/
def npos : Nat := 2 ^ 64 - 1

/-- The queue-draining loop of `graph::BFS`: pop the frontier head, and for
each edge out of it whose destination has no distance yet, record
distance = current + 1 and parent = current and enqueue the destination.
`none` embeds the exception of `_edges.at` on a key with no adjacency entry
(and fuel exhaustion, which cannot happen at the inputs used). -/
def bfsLoop {K V : Type} [DecidableEq K] (g : HGraph K V) :
    Nat → List K → List (K × Option K) → List (K × Nat) →
    Option (List (K × Option K) × List (K × Nat))
  | _, [], parent, distance => some (parent, distance)
  | 0, _ :: _, _, _ => none
  | fuel + 1, curr :: q, parent, distance =>
    match Assoc.alookup g.edges curr with
    | none => none
    | some adj =>
      let step := fun (st : List K × List (K × Option K) × List (K × Nat)) (e : HEdge K) =>
        let (q, parent, distance) := st
        if (Assoc.alookup distance e.dest).isSome then (q, parent, distance)
        else (q ++ [e.dest],
              Assoc.aset parent e.dest (some curr),
              Assoc.aset distance e.dest ((Assoc.alookup distance curr).getD 0 + 1))
      let st2 := adj.foldl step (q, parent, distance)
      bfsLoop g fuel st2.1 st2.2.1 st2.2.2

/-- `graph::BFS` from a source vertex: seed the maps with the source
(distance 0, parent = `cend()`, embedded as `none`), drain the queue, then
assign `npos` to every vertex absent from the distance map. -/
def BFS {K V : Type} [DecidableEq K] (g : HGraph K V) (source : K) (fuel : Nat) :
    Option (List (K × Option K) × List (K × Nat)) :=
  (bfsLoop g fuel [source] [(source, none)] [(source, 0)]).map fun pd =>
    (pd.1,
     g.vertices.foldl
       (fun d v => if (Assoc.alookup d v.1).isSome then d else Assoc.aset d v.1 npos)
       pd.2)

/-- The graph of the `Searches` test case: keys 0..7 with the ten undirected
edges of the scenario, inserted in the test's order. -/
def g1 : HGraph Nat Nat :=
  let gv := (List.range 8).foldl (fun g i => insert g (i, i)) (⟨[], []⟩ : HGraph Nat Nat)
  [(0, 1), (0, 4), (1, 5), (2, 3), (2, 5), (2, 6), (3, 6), (3, 7), (5, 6), (6, 7)].foldl
    (fun g ab => add_undirected_edge g ab.1 ab.2 0) gv

/-- The distance map of `BFS` from key 1 on the scenario graph. -/
def bfsC2dist : Option (List (Nat × Nat)) := (BFS g1 1 100).map (·.2)

end HashGraph

namespace Dfs

/-- The `DfsEvent` union of `tests/visiting.cpp` (one constructor per `Kind`;
only `Discover` is ever constructed by the source). -/
inductive DfsEvent where
  | Discover (source : Nat) (time : Nat)
  | TreeEdge (source : Nat) (target : Nat)
  | BackEdge (source : Nat) (target : Nat)
  | CrossForwardEdge (source : Nat) (target : Nat)
  | Finish (source : Nat) (time : Nat)
deriving DecidableEq, Repr

/-- The `ControlFlow` result type: a tagged `Continue` or `Break(value)`. -/
inductive ControlFlow (T : Type) where
  | Continue
  | Break (data : T)
deriving DecidableEq, Repr

/-- The `visit` helper of `tests/visiting.cpp`, exactly as written: if the node
is already a key of the map, set its value to `true` and return `true`;
otherwise return `false` without touching the map. (On a node reached for the
first time the map has no entry for it, so this returns `false`.) -/
def visit (discovered_finished : List (Nat × Bool)) (node : Nat) :
    List (Nat × Bool) × Bool :=
  if (Assoc.alookup discovered_finished node).isSome then
    (Assoc.aset discovered_finished node true, true)
  else (discovered_finished, false)

/-- The `dfs_visitor` function of `tests/visiting.cpp`, exactly as written: if
`visit` returns `false` the function returns `Continue` at once (delivering no
event); otherwise it builds a `Discover(u, time)` event, post-increments the
time, delivers the event to the visitor, and returns the visitor's result on
`Break` (the function body ends after the `TRY_CONTROL`, so the `Continue` path
also ends the call). The second component of the result is the list of events
delivered to the visitor during the call. The graph argument is never read
(the source contains no recursion into neighbors). -/
def dfs_visitor {N E T : Type} (g : Arena.AGraph N E) (u : Nat)
    (visitor : DfsEvent → ControlFlow T)
    (discovered finished : List (Nat × Bool)) (time : Nat) :
    ControlFlow T × List DfsEvent × List (Nat × Bool) × List (Nat × Bool) × Nat :=
  let vd := visit discovered u
  if vd.2 = false then (.Continue, [], vd.1, finished, time)
  else
    let ev := DfsEvent.Discover u time
    match visitor ev with
    | .Break v => (.Break v, [ev], vd.1, finished, time + 1)
    | .Continue => (.Continue, [ev], vd.1, finished, time + 1)

/-- The `depth_first_search` function of `tests/visiting.cpp`: initialize
time = 0 and empty `discovered` / `finished` maps and call `dfs_visitor` on the
start node. The C++ function returns `void`, discarding `dfs_visitor`'s
control-flow result; the embedding returns the list of events delivered to the
visitor, the only remaining observable of the call. -/
def depth_first_search {N E T : Type} (g : Arena.AGraph N E) (start : Nat)
    (visitor : DfsEvent → ControlFlow T) : List DfsEvent :=
  (dfs_visitor g start visitor [] [] 0).2.1

/-- A one-node arena graph (node 0), the smallest input on which a DFS event
should be delivered. -/
def gOne : Arena.AGraph Nat Nat := (Arena.add_node Arena.emptyGraph 0).1

end Dfs

namespace ListGraph

/-- An iterator of the linked-list `Graph<T, is_directed>`: either the
past-the-end iterator `end()` or the position of a vertex in the vertex list
(positions are stable here because none of the embedded scenarios erase). -/
inductive LIter where
  | endIt
  | pos (i : Nat)
deriving DecidableEq, Repr

/-- The linked-list graph of `include/graph.hpp`: each vertex carries its value
and its `adjacent_edges` vector, each edge holding the position of its incident
vertex. -/
structure GraphLL (T : Type) where
  vertices : List (T × List Nat)
deriving DecidableEq, Repr

/-- `Graph::insert`, exactly as written: `push_back` the value (with an empty
adjacency vector) and `return end();`. -/
def insert {T : Type} (g : GraphLL T) (value : T) : GraphLL T × LIter :=
  ({ vertices := g.vertices ++ [(value, [])] }, .endIt)

/-- `Graph::emplace`, exactly as written: `emplace_back` the constructed value
and `return end();`. -/
def emplace {T : Type} (g : GraphLL T) (value : T) : GraphLL T × LIter :=
  ({ vertices := g.vertices ++ [(value, [])] }, .endIt)

/-- Dereference an iterator: the value at its position, or `none` for the
past-the-end iterator (not dereferenceable in C++). -/
def deref {T : Type} (g : GraphLL T) (it : LIter) : Option T :=
  match it with
  | .endIt => none
  | .pos i => (g.vertices.get? i).map (·.1)

/-- Appends position `j` to the adjacency vector of the vertex at position
`i`. -/
def pushAdj {T : Type} (g : GraphLL T) (i j : Nat) : GraphLL T :=
  match g.vertices.get? i with
  | some vadj => { vertices := g.vertices.set i (vadj.1, vadj.2 ++ [j]) }
  | none => g

/-- `Graph::add_edge` on dereferenceable iterators (taken as positions): push
an edge `a → b`, and also `b → a` when the graph is not directed. -/
def add_edge {T : Type} (is_directed : Bool) (g : GraphLL T) (a b : Nat) : GraphLL T :=
  let g1 := pushAdj g a b
  if is_directed then g1 else pushAdj g1 b a

/-- `Graph::adjacent_vertices_of`: the iterators held by the vertex's
`adjacent_edges` vector, in vector order. -/
def adjacent_vertices_of {T : Type} (g : GraphLL T) (it : LIter) : List LIter :=
  match it with
  | .endIt => []
  | .pos i => ((g.vertices.get? i).map fun p => p.2.map LIter.pos).getD []

/-- A read of `distance[it]` through `std::map::operator[]`: yields the stored
value, or value-initializes the entry to 0 and yields 0 when the key is
absent. -/
def getD0 (m : List (LIter × Int)) (k : LIter) : List (LIter × Int) × Int :=
  match Assoc.alookup m k with
  | some v => (m, v)
  | none => (m ++ [(k, 0)], 0)

/-- Extraction from the `std::multiset` frontier ordered by second component:
the leftmost entry of minimal weight, and the rest. -/
def popMin : List (LIter × Int) → Option ((LIter × Int) × List (LIter × Int))
  | [] => none
  | x :: xs =>
    match popMin xs with
    | none => some (x, [])
    | some mr => if x.2 ≤ mr.1.2 then some (x, xs) else some (mr.1, x :: mr.2)

/-- The frontier loop of `algorithms/dijkstra.hpp`, translated statement by
statement: extract the minimum entry `current`; for each adjacent vertex `it`
of `current.first`, compute `new_cost = current.second + weight(current, it)`;
read `distance[it]` through `operator[]` (value-initializing an absent entry to
0); if `new_cost < distance[it]`, write the distance and parent maps and push
`(it, new_cost)`. The weight values are embedded as `Int` (the C++ `double`
arithmetic is exact on the small integer costs of every scenario used). Fuel
bounds the iteration count; the loop returns the maps when the frontier
drains. -/
def dijkstraLoop {T : Type} (g : GraphLL T) (weight : (LIter × Int) → LIter → Int) :
    Nat → List (LIter × Int) → List (LIter × Int) → List (LIter × LIter) →
    List (LIter × Int) × List (LIter × LIter)
  | 0, _, dist, par => (dist, par)
  | fuel + 1, q, dist, par =>
    match popMin q with
    | none => (dist, par)
    | some cq =>
      let current := cq.1
      let step := fun (st : List (LIter × Int) × List (LIter × Int) × List (LIter × LIter))
          (it : LIter) =>
        let (q, dist, par) := st
        let newCost := current.2 + weight current it
        let dd := getD0 dist it
        if newCost < dd.2 then
          (q ++ [(it, newCost)], Assoc.aset dd.1 it newCost, Assoc.aset par it current.1)
        else (q, dd.1, par)
      let st2 := (adjacent_vertices_of g current.1).foldl step (cq.2, dist, par)
      dijkstraLoop g weight fuel st2.1 st2.2.1 st2.2.2

/-- `dijkstra(g, source, weight)`: distance map seeded with `{source, 0}`,
parent map with `{source, g.end()}`, frontier with `(source, 0)`; then the
frontier loop. -/
def dijkstra {T : Type} (g : GraphLL T) (source : LIter)
    (weight : (LIter × Int) → LIter → Int) (fuel : Nat) :
    List (LIter × Int) × List (LIter × LIter) :=
  dijkstraLoop g weight fuel [(source, 0)] [(source, 0)] [(source, .endIt)]

/-- A directed two-vertex graph with the single edge `0 → 1` (vertex 1 is at
breadth-first distance 1 from vertex 0). -/
def gD : GraphLL Nat := add_edge true ⟨[(0, []), (1, [])]⟩ 0 1

end ListGraph

namespace Arena

/-- A two-node arena graph (nodes 0 and 1, no edges). -/
def gTwo : AGraph Nat Nat := (add_node (add_node emptyGraph 0).1 1).1

end Arena

namespace Arena

theorem walkFrom_none {E : Type} (es : List (AEdge E)) (d : Dir) (fuel : Nat) :
    walkFrom es d fuel none = [] := by
  cases fuel <;> rfl

theorem incidentB_append {E : Type} (es : List (AEdge E)) (e : AEdge E) (n : Nat)
    (d : Dir) (i : Nat) (h : i < es.length) :
    incidentB (es ++ [e]) n d i = incidentB es n d i := by
  unfold incidentB
  rw [List.get?_append h]

theorem upTo_append {E : Type} (es : List (AEdge E)) (e : AEdge E) (k n : Nat)
    (d : Dir) (h : k ≤ es.length) :
    upTo (es ++ [e]) k n d = upTo es k n d := by
  unfold upTo
  congr 1
  refine List.filter_congr fun i hi => ?_
  exact incidentB_append es e n d i (lt_of_lt_of_le (List.mem_range.mp hi) h)

theorem upTo_succ {E : Type} (es : List (AEdge E)) (k n : Nat) (d : Dir) :
    upTo es (k + 1) n d = (if incidentB es n d k then [k] else []) ++ upTo es k n d := by
  unfold upTo
  rw [List.range_succ, List.filter_append, List.reverse_append]
  cases h : incidentB es n d k <;> simp [h]

theorem upTo_eq_nil {E : Type} (es : List (AEdge E)) (L k n : Nat) (d : Dir)
    (hep : ∀ i e, es.get? i = some e → e.source < L ∧ e.target < L) (hn : L ≤ n) :
    upTo es k n d = [] := by
  unfold upTo
  rw [List.reverse_eq_nil_iff]
  refine List.filter_eq_nil.mpr fun i _ => ?_
  unfold incidentB
  cases hgi : es.get? i with
  | none => simp
  | some e =>
    have hlt : e.endp d < L := by
      cases d
      · exact (hep i e hgi).1
      · exact (hep i e hgi).2
    simp only [beq_iff_eq]
    omega

theorem walkFrom_upTo {E : Type} (es : List (AEdge E))
    (hnext : ∀ i d e, es.get? i = some e →
      e.next d = (upTo es i (e.endp d) d).head?)
    (n : Nat) (d : Dir) :
    ∀ k fuel, k ≤ fuel → walkFrom es d fuel (upTo es k n d).head? = upTo es k n d := by
  intro k
  induction k with
  | zero =>
    intro fuel _
    have h0 : upTo es 0 n d = [] := by simp [upTo]
    rw [h0]
    exact walkFrom_none es d fuel
  | succ k ih =>
    intro fuel hf
    rw [upTo_succ]
    cases hik : incidentB es n d k with
    | false =>
      rw [if_neg Bool.false_ne_true, List.nil_append]
      exact ih fuel (le_trans (Nat.le_succ k) hf)
    | true =>
      rw [if_pos rfl, List.singleton_append, List.head?_cons]
      obtain ⟨f, rfl⟩ : ∃ f, fuel = f + 1 := ⟨fuel - 1, by omega⟩
      have hge : ∃ e, es.get? k = some e := by
        unfold incidentB at hik
        cases hgk : es.get? k with
        | none => rw [hgk] at hik; exact absurd hik (by simp)
        | some e => exact ⟨e, rfl⟩
      obtain ⟨e, hge⟩ := hge
      have hend : e.endp d = n := by
        unfold incidentB at hik
        rw [hge] at hik
        exact beq_iff_eq.mp hik
      show k :: walkFrom es d f (edgeNext es k d) = k :: upTo es k n d
      congr 1
      have h1 : edgeNext es k d = e.next d := by
        unfold edgeNext
        rw [hge]
      rw [h1, hnext k d e hge, hend]
      exact ih f (by omega)

theorem adjEdges_of_linksInv {N E : Type} (g : AGraph N E) (hinv : linksInv g)
    (n : Nat) (d : Dir) : adjEdges g n d = incidentList g n d := by
  unfold adjEdges
  rw [hinv.1 n d]
  exact walkFrom_upTo g.edges hinv.2.1 n d g.edges.length g.edges.length le_rfl

theorem nodeHead_append_lt {N : Type} (nodes : List (ANode N)) (nd : ANode N)
    (n : Nat) (d : Dir) (h : n < nodes.length) :
    nodeHead (nodes ++ [nd]) n d = nodeHead nodes n d := by
  unfold nodeHead
  rw [List.get?_append h]

theorem nodeHead_get {N : Type} (nodes : List (ANode N)) (n : Nat) (d : Dir)
    (h : n < nodes.length) : nodeHead nodes n d = (nodes.get ⟨n, h⟩).head d := by
  unfold nodeHead
  rw [List.get?_eq_get h]

theorem linksInv_empty {N E : Type} : linksInv (emptyGraph : AGraph N E) := by
  refine ⟨fun n d => rfl, ?_, ?_⟩
  · intro i d e hge
    simp [emptyGraph] at hge
  · intro i e hge
    simp [emptyGraph] at hge

theorem linksInv_add_node {N E : Type} (g : AGraph N E) (w : N) (h : linksInv g) :
    linksInv (add_node g w).1 := by
  obtain ⟨h1, h2, h3⟩ := h
  refine ⟨?_, ?_, ?_⟩
  · intro n d
    show nodeHead (g.nodes ++ [(⟨w, none, none⟩ : ANode N)]) n d = _
    by_cases hn : n < g.nodes.length
    · rw [nodeHead_append_lt _ _ _ _ hn]
      exact h1 n d
    · have hL : nodeHead (g.nodes ++ [(⟨w, none, none⟩ : ANode N)]) n d = none := by
        by_cases he : n = g.nodes.length
        · subst he
          unfold nodeHead
          rw [List.get?_concat_length]
          cases d <;> rfl
        · unfold nodeHead
          rw [List.get?_eq_none.mpr (by simp; omega)]
      have hR : upTo g.edges g.edges.length n d = [] :=
        upTo_eq_nil g.edges g.nodes.length _ n d h3 (by omega)
      rw [hL]
      show (none : Option Nat) = (upTo g.edges g.edges.length n d).head?
      rw [hR]
      rfl
  · intro i d e hge
    exact h2 i d e hge
  · intro i e hge
    have hh := h3 i e hge
    show e.source < (g.nodes ++ [(⟨w, none, none⟩ : ANode N)]).length ∧
      e.target < (g.nodes ++ [(⟨w, none, none⟩ : ANode N)]).length
    rw [List.length_append, List.length_singleton]
    omega

theorem linksInv_link_loop {N E : Type} (nodes : List (ANode N)) (es : List (AEdge E))
    (s : Nat) (w : E) (nd : ANode N) (hnd : nodes.get? s = some nd)
    (hinv : linksInv (AGraph.mk nodes es)) :
    linksInv (AGraph.mk (nodes.set s ⟨nd.weight, some es.length, some es.length⟩)
      (es ++ [⟨w, s, s, nd.headOut, nd.headIn⟩])) := by
  obtain ⟨h1, h2, h3⟩ := hinv
  have h1' : ∀ n d, nodeHead nodes n d = (upTo es es.length n d).head? := h1
  have h2' : ∀ i d e, es.get? i = some e →
      e.next d = (upTo es i (e.endp d) d).head? := h2
  have h3' : ∀ i e, es.get? i = some e →
      e.source < nodes.length ∧ e.target < nodes.length := h3
  obtain ⟨hs, -⟩ := List.get?_eq_some.mp hnd
  have hgeK : (es ++ [(⟨w, s, s, nd.headOut, nd.headIn⟩ : AEdge E)]).get? es.length
      = some ⟨w, s, s, nd.headOut, nd.headIn⟩ := List.get?_concat_length _ _
  have hlen : (es ++ [(⟨w, s, s, nd.headOut, nd.headIn⟩ : AEdge E)]).length
      = es.length + 1 := by simp
  have hincK : ∀ n d, incidentB (es ++ [(⟨w, s, s, nd.headOut, nd.headIn⟩ : AEdge E)])
      n d es.length = (s == n) := by
    intro n d
    unfold incidentB
    rw [hgeK]
    cases d <;> rfl
  have hIL : ∀ n d, upTo (es ++ [(⟨w, s, s, nd.headOut, nd.headIn⟩ : AEdge E)])
      (es ++ [(⟨w, s, s, nd.headOut, nd.headIn⟩ : AEdge E)]).length n d
      = (if s == n then [es.length] else []) ++ upTo es es.length n d := by
    intro n d
    rw [hlen, upTo_succ, hincK, upTo_append es _ es.length n d le_rfl]
  refine ⟨?_, ?_, ?_⟩
  · intro n d
    show nodeHead (nodes.set s ⟨nd.weight, some es.length, some es.length⟩) n d
      = (upTo (es ++ [⟨w, s, s, nd.headOut, nd.headIn⟩])
          (es ++ [(⟨w, s, s, nd.headOut, nd.headIn⟩ : AEdge E)]).length n d).head?
    rw [hIL]
    by_cases hn : s = n
    · subst hn
      have hL : nodeHead (nodes.set s ⟨nd.weight, some es.length, some es.length⟩) s d
          = some es.length := by
        unfold nodeHead
        rw [List.get?_set_eq, hnd]
        cases d <;> rfl
      rw [hL, if_pos (by simp)]
      rfl
    · have hL : nodeHead (nodes.set s ⟨nd.weight, some es.length, some es.length⟩) n d
          = nodeHead nodes n d := by
        unfold nodeHead
        rw [List.get?_set_ne _ _ hn]
      rw [hL, h1' n d, if_neg (by simp [hn]), List.nil_append]
  · intro i d e2 hge2
    by_cases hik : i < es.length
    · have hge2' : es.get? i = some e2 := by
        rw [List.get?_append hik] at hge2
        exact hge2
      show e2.next d = (upTo (es ++ [⟨w, s, s, nd.headOut, nd.headIn⟩]) i (e2.endp d) d).head?
      rw [upTo_append _ _ _ _ _ (le_of_lt hik)]
      exact h2' i d e2 hge2'
    · have hieq : i = es.length := by
        obtain ⟨hl, -⟩ := List.get?_eq_some.mp hge2
        rw [hlen] at hl
        omega
      subst hieq
      rw [hgeK] at hge2
      have he2 : e2 = ⟨w, s, s, nd.headOut, nd.headIn⟩ := (Option.some.inj hge2).symm
      subst he2
      rw [upTo_append _ _ _ _ _ le_rfl]
      cases d
      · show nd.headOut = (upTo es es.length s Dir.outgoing).head?
        have hh := h1' s Dir.outgoing
        unfold nodeHead at hh
        rw [hnd] at hh
        exact hh
      · show nd.headIn = (upTo es es.length s Dir.ingoing).head?
        have hh := h1' s Dir.ingoing
        unfold nodeHead at hh
        rw [hnd] at hh
        exact hh
  · intro i e2 hge2
    show e2.source < (nodes.set s ⟨nd.weight, some es.length, some es.length⟩).length ∧
      e2.target < (nodes.set s ⟨nd.weight, some es.length, some es.length⟩).length
    rw [List.length_set]
    by_cases hik : i < es.length
    · exact h3' i e2 (by rw [List.get?_append hik] at hge2; exact hge2)
    · have hieq : i = es.length := by
        obtain ⟨hl, -⟩ := List.get?_eq_some.mp hge2
        rw [hlen] at hl
        omega
      subst hieq
      rw [hgeK] at hge2
      have he2 : e2 = ⟨w, s, s, nd.headOut, nd.headIn⟩ := (Option.some.inj hge2).symm
      subst he2
      exact ⟨hs, hs⟩

theorem linksInv_link_two {N E : Type} (nodes : List (ANode N)) (es : List (AEdge E))
    (s t : Nat) (w : E) (ns nt : ANode N) (hst : s ≠ t)
    (hns : nodes.get? s = some ns) (hnt : nodes.get? t = some nt)
    (hinv : linksInv (AGraph.mk nodes es)) :
    linksInv (AGraph.mk
      ((nodes.set s ⟨ns.weight, some es.length, ns.headIn⟩).set t
        ⟨nt.weight, nt.headOut, some es.length⟩)
      (es ++ [⟨w, s, t, ns.headOut, nt.headIn⟩])) := by
  obtain ⟨h1, h2, h3⟩ := hinv
  have h1' : ∀ n d, nodeHead nodes n d = (upTo es es.length n d).head? := h1
  have h2' : ∀ i d e, es.get? i = some e →
      e.next d = (upTo es i (e.endp d) d).head? := h2
  have h3' : ∀ i e, es.get? i = some e →
      e.source < nodes.length ∧ e.target < nodes.length := h3
  obtain ⟨hs, -⟩ := List.get?_eq_some.mp hns
  obtain ⟨ht, -⟩ := List.get?_eq_some.mp hnt
  have hgeK : (es ++ [(⟨w, s, t, ns.headOut, nt.headIn⟩ : AEdge E)]).get? es.length
      = some ⟨w, s, t, ns.headOut, nt.headIn⟩ := List.get?_concat_length _ _
  have hlen : (es ++ [(⟨w, s, t, ns.headOut, nt.headIn⟩ : AEdge E)]).length
      = es.length + 1 := by simp
  have hincKout : ∀ n, incidentB (es ++ [(⟨w, s, t, ns.headOut, nt.headIn⟩ : AEdge E)])
      n Dir.outgoing es.length = (s == n) := by
    intro n
    unfold incidentB
    rw [hgeK]
    rfl
  have hincKin : ∀ n, incidentB (es ++ [(⟨w, s, t, ns.headOut, nt.headIn⟩ : AEdge E)])
      n Dir.ingoing es.length = (t == n) := by
    intro n
    unfold incidentB
    rw [hgeK]
    rfl
  have hIL : ∀ n d, upTo (es ++ [(⟨w, s, t, ns.headOut, nt.headIn⟩ : AEdge E)])
      (es ++ [(⟨w, s, t, ns.headOut, nt.headIn⟩ : AEdge E)]).length n d
      = (if incidentB (es ++ [(⟨w, s, t, ns.headOut, nt.headIn⟩ : AEdge E)]) n d es.length
          then [es.length] else []) ++ upTo es es.length n d := by
    intro n d
    rw [hlen, upTo_succ, upTo_append es _ es.length n d le_rfl]
  have hgets : ((nodes.set s ⟨ns.weight, some es.length, ns.headIn⟩).set t
      ⟨nt.weight, nt.headOut, some es.length⟩).get? s
      = some ⟨ns.weight, some es.length, ns.headIn⟩ := by
    rw [List.get?_set_ne _ _ (Ne.symm hst), List.get?_set_eq, hns]
    rfl
  have hgett : ((nodes.set s ⟨ns.weight, some es.length, ns.headIn⟩).set t
      ⟨nt.weight, nt.headOut, some es.length⟩).get? t
      = some ⟨nt.weight, nt.headOut, some es.length⟩ := by
    rw [List.get?_set_eq, List.get?_set_ne _ _ hst, hnt]
    rfl
  refine ⟨?_, ?_, ?_⟩
  · intro n d
    show nodeHead ((nodes.set s ⟨ns.weight, some es.length, ns.headIn⟩).set t
        ⟨nt.weight, nt.headOut, some es.length⟩) n d
      = (upTo (es ++ [⟨w, s, t, ns.headOut, nt.headIn⟩])
          (es ++ [(⟨w, s, t, ns.headOut, nt.headIn⟩ : AEdge E)]).length n d).head?
    rw [hIL]
    cases d
    case outgoing =>
      rw [hincKout n]
      by_cases hsn : s = n
      · subst hsn
        have hL : nodeHead ((nodes.set s ⟨ns.weight, some es.length, ns.headIn⟩).set t
            ⟨nt.weight, nt.headOut, some es.length⟩) s Dir.outgoing = some es.length := by
          unfold nodeHead
          rw [hgets]
          rfl
        rw [hL, if_pos (by simp)]
        rfl
      · rw [if_neg (by simp [hsn]), List.nil_append]
        by_cases htn : t = n
        · subst htn
          have hL : nodeHead ((nodes.set s ⟨ns.weight, some es.length, ns.headIn⟩).set t
              ⟨nt.weight, nt.headOut, some es.length⟩) t Dir.outgoing = nt.headOut := by
            unfold nodeHead
            rw [hgett]
            rfl
          rw [hL]
          have hh := h1' t Dir.outgoing
          unfold nodeHead at hh
          rw [hnt] at hh
          exact hh
        · have hL : nodeHead ((nodes.set s ⟨ns.weight, some es.length, ns.headIn⟩).set t
              ⟨nt.weight, nt.headOut, some es.length⟩) n Dir.outgoing
              = nodeHead nodes n Dir.outgoing := by
            unfold nodeHead
            rw [List.get?_set_ne _ _ htn, List.get?_set_ne _ _ hsn]
          rw [hL, h1' n Dir.outgoing]
    case ingoing =>
      rw [hincKin n]
      by_cases htn : t = n
      · subst htn
        have hL : nodeHead ((nodes.set s ⟨ns.weight, some es.length, ns.headIn⟩).set t
            ⟨nt.weight, nt.headOut, some es.length⟩) t Dir.ingoing = some es.length := by
          unfold nodeHead
          rw [hgett]
          rfl
        rw [hL, if_pos (by simp)]
        rfl
      · rw [if_neg (by simp [htn]), List.nil_append]
        by_cases hsn : s = n
        · subst hsn
          have hL : nodeHead ((nodes.set s ⟨ns.weight, some es.length, ns.headIn⟩).set t
              ⟨nt.weight, nt.headOut, some es.length⟩) s Dir.ingoing = ns.headIn := by
            unfold nodeHead
            rw [hgets]
            rfl
          rw [hL]
          have hh := h1' s Dir.ingoing
          unfold nodeHead at hh
          rw [hns] at hh
          exact hh
        · have hL : nodeHead ((nodes.set s ⟨ns.weight, some es.length, ns.headIn⟩).set t
              ⟨nt.weight, nt.headOut, some es.length⟩) n Dir.ingoing
              = nodeHead nodes n Dir.ingoing := by
            unfold nodeHead
            rw [List.get?_set_ne _ _ htn, List.get?_set_ne _ _ hsn]
          rw [hL, h1' n Dir.ingoing]
  · intro i d e2 hge2
    by_cases hik : i < es.length
    · have hge2' : es.get? i = some e2 := by
        rw [List.get?_append hik] at hge2
        exact hge2
      show e2.next d
        = (upTo (es ++ [⟨w, s, t, ns.headOut, nt.headIn⟩]) i (e2.endp d) d).head?
      rw [upTo_append _ _ _ _ _ (le_of_lt hik)]
      exact h2' i d e2 hge2'
    · have hieq : i = es.length := by
        obtain ⟨hl, -⟩ := List.get?_eq_some.mp hge2
        rw [hlen] at hl
        omega
      subst hieq
      rw [hgeK] at hge2
      have he2 : e2 = ⟨w, s, t, ns.headOut, nt.headIn⟩ := (Option.some.inj hge2).symm
      subst he2
      rw [upTo_append _ _ _ _ _ le_rfl]
      cases d
      · show ns.headOut = (upTo es es.length s Dir.outgoing).head?
        have hh := h1' s Dir.outgoing
        unfold nodeHead at hh
        rw [hns] at hh
        exact hh
      · show nt.headIn = (upTo es es.length t Dir.ingoing).head?
        have hh := h1' t Dir.ingoing
        unfold nodeHead at hh
        rw [hnt] at hh
        exact hh
  · intro i e2 hge2
    show e2.source < ((nodes.set s ⟨ns.weight, some es.length, ns.headIn⟩).set t
        ⟨nt.weight, nt.headOut, some es.length⟩).length ∧
      e2.target < ((nodes.set s ⟨ns.weight, some es.length, ns.headIn⟩).set t
        ⟨nt.weight, nt.headOut, some es.length⟩).length
    rw [List.length_set, List.length_set]
    by_cases hik : i < es.length
    · exact h3' i e2 (by rw [List.get?_append hik] at hge2; exact hge2)
    · have hieq : i = es.length := by
        obtain ⟨hl, -⟩ := List.get?_eq_some.mp hge2
        rw [hlen] at hl
        omega
      subst hieq
      rw [hgeK] at hge2
      have he2 : e2 = ⟨w, s, t, ns.headOut, nt.headIn⟩ := (Option.some.inj hge2).symm
      subst he2
      exact ⟨hs, ht⟩

theorem linksInv_applyOp {N E : Type} (g : AGraph N E) (op : Op N E) (h : linksInv g) :
    linksInv (applyOp g op) := by
  cases op with
  | addNode w => exact linksInv_add_node g w h
  | clearOp => exact linksInv_empty
  | addEdge s t w =>
    by_cases hc : s < g.nodes.length ∧ t < g.nodes.length
    · by_cases hst : s = t
      · subst hst
        have hred : applyOp g (Op.addEdge s s w) = AGraph.mk
            (g.nodes.set s ⟨(g.nodes.get ⟨s, hc.1⟩).weight, some g.edges.length,
              some g.edges.length⟩)
            (g.edges ++ [⟨w, s, s, (g.nodes.get ⟨s, hc.1⟩).headOut,
              (g.nodes.get ⟨s, hc.1⟩).headIn⟩]) := by
          show (match add_edge g s s w with | .ok p => p.1 | .error _ => g) = _
          unfold add_edge
          rw [dif_pos hc, if_pos rfl]
        rw [hred]
        exact linksInv_link_loop g.nodes g.edges s w _ (List.get?_eq_get hc.1) h
      · have hred : applyOp g (Op.addEdge s t w) = AGraph.mk
            ((g.nodes.set s ⟨(g.nodes.get ⟨s, hc.1⟩).weight, some g.edges.length,
                (g.nodes.get ⟨s, hc.1⟩).headIn⟩).set t
              ⟨(g.nodes.get ⟨t, hc.2⟩).weight, (g.nodes.get ⟨t, hc.2⟩).headOut,
                some g.edges.length⟩)
            (g.edges ++ [⟨w, s, t, (g.nodes.get ⟨s, hc.1⟩).headOut,
              (g.nodes.get ⟨t, hc.2⟩).headIn⟩]) := by
          show (match add_edge g s t w with | .ok p => p.1 | .error _ => g) = _
          unfold add_edge
          rw [dif_pos hc, if_neg hst]
        rw [hred]
        exact linksInv_link_two g.nodes g.edges s t w _ _ hst
          (List.get?_eq_get hc.1) (List.get?_eq_get hc.2) h
    · have hred : applyOp g (Op.addEdge s t w) = g := by
        show (match add_edge g s t w with | .ok p => p.1 | .error _ => g) = g
        unfold add_edge
        rw [dif_neg hc]
      rw [hred]
      exact h

theorem linksInv_applyOps {N E : Type} (ops : List (Op N E)) :
    ∀ g : AGraph N E, linksInv g → linksInv (applyOps g ops) := by
  induction ops with
  | nil => exact fun g h => h
  | cons op r ih => exact fun g h => ih (applyOp g op) (linksInv_applyOp g op h)

/-- C1: for every graph built by any sequence of interface calls and every node
and direction, the adjacency walk (following the node's head and the edges'
"next" links for that direction) yields exactly the node's incident edges in
that direction, in reverse insertion order — strictly decreasing arena index,
most recently inserted first — and the node's head for that direction is the
most recently linked incident edge (the head of that list). -/
theorem adjacency_walk_reverse_insertion {N E : Type} (ops : List (Op N E))
    (n : Nat) (d : Dir) :
    adjEdges (applyOps emptyGraph ops) n d = incidentList (applyOps emptyGraph ops) n d ∧
    (∀ i, i ∈ adjEdges (applyOps emptyGraph ops) n d ↔
      incidentB (applyOps emptyGraph ops).edges n d i = true) ∧
    List.Pairwise (fun a b => a > b) (adjEdges (applyOps emptyGraph ops) n d) ∧
    nodeHead (applyOps emptyGraph ops).nodes n d
      = (incidentList (applyOps emptyGraph ops) n d).head? := by
  have hinv := linksInv_applyOps ops emptyGraph linksInv_empty
  have he := adjEdges_of_linksInv _ hinv n d
  refine ⟨he, ?_, ?_, hinv.1 n d⟩
  · intro i
    rw [he]
    unfold incidentList upTo
    rw [List.mem_reverse, List.mem_filter, List.mem_range]
    constructor
    · exact fun hx => hx.2
    · intro hx
      refine ⟨?_, hx⟩
      unfold incidentB at hx
      cases hgi : (applyOps emptyGraph ops).edges.get? i with
      | none => rw [hgi] at hx; exact absurd hx (by simp)
      | some e =>
        obtain ⟨hl, -⟩ := List.get?_eq_some.mp hgi
        exact hl
  · rw [he]
    unfold incidentList upTo
    rw [List.pairwise_reverse]
    exact (List.pairwise_lt_range _).filter _

theorem applyOp_addEdge_self {N E : Type} (g : AGraph N E) (s : Nat) (w : E)
    (hc : s < g.nodes.length ∧ s < g.nodes.length) :
    applyOp g (Op.addEdge s s w) = AGraph.mk
      (g.nodes.set s ⟨(g.nodes.get ⟨s, hc.1⟩).weight, some g.edges.length,
        some g.edges.length⟩)
      (g.edges ++ [⟨w, s, s, (g.nodes.get ⟨s, hc.1⟩).headOut,
        (g.nodes.get ⟨s, hc.1⟩).headIn⟩]) := by
  show (match add_edge g s s w with | .ok p => p.1 | .error _ => g) = _
  unfold add_edge
  rw [dif_pos hc, if_pos rfl]

theorem applyOp_addEdge_two {N E : Type} (g : AGraph N E) (s t : Nat) (w : E)
    (hc : s < g.nodes.length ∧ t < g.nodes.length) (hst : s ≠ t) :
    applyOp g (Op.addEdge s t w) = AGraph.mk
      ((g.nodes.set s ⟨(g.nodes.get ⟨s, hc.1⟩).weight, some g.edges.length,
          (g.nodes.get ⟨s, hc.1⟩).headIn⟩).set t
        ⟨(g.nodes.get ⟨t, hc.2⟩).weight, (g.nodes.get ⟨t, hc.2⟩).headOut,
          some g.edges.length⟩)
      (g.edges ++ [⟨w, s, t, (g.nodes.get ⟨s, hc.1⟩).headOut,
        (g.nodes.get ⟨t, hc.2⟩).headIn⟩]) := by
  show (match add_edge g s t w with | .ok p => p.1 | .error _ => g) = _
  unfold add_edge
  rw [dif_pos hc, if_neg hst]

theorem applyOp_addEdge_invalid {N E : Type} (g : AGraph N E) (s t : Nat) (w : E)
    (hc : ¬(s < g.nodes.length ∧ t < g.nodes.length)) :
    applyOp g (Op.addEdge s t w) = g := by
  show (match add_edge g s t w with | .ok p => p.1 | .error _ => g) = g
  unfold add_edge
  rw [dif_neg hc]

theorem counts_applyOp_addEdge {N E : Type} (g : AGraph N E) (s t : Nat) (w : E) :
    node_count (applyOp g (Op.addEdge s t w)) = node_count g ∧
    edge_count (applyOp g (Op.addEdge s t w))
      = if s < node_count g ∧ t < node_count g then edge_count g + 1
        else edge_count g := by
  by_cases hc : s < node_count g ∧ t < node_count g
  · rw [if_pos hc]
    by_cases hst : s = t
    · subst hst
      rw [applyOp_addEdge_self g s w hc]
      constructor
      · show (g.nodes.set s _).length = g.nodes.length
        rw [List.length_set]
      · show (g.edges ++ [_]).length = g.edges.length + 1
        simp
    · rw [applyOp_addEdge_two g s t w hc hst]
      constructor
      · show ((g.nodes.set s _).set t _).length = g.nodes.length
        rw [List.length_set, List.length_set]
      · show (g.edges ++ [_]).length = g.edges.length + 1
        simp
  · rw [applyOp_addEdge_invalid g s t w hc, if_neg hc]
    exact ⟨rfl, rfl⟩

theorem counts_applyOps {N E : Type} (ops : List (Op N E)) :
    ∀ g : AGraph N E,
      (node_count (applyOps g ops), edge_count (applyOps g ops))
        = countsAfter (node_count g, edge_count g) ops := by
  induction ops with
  | nil => exact fun g => rfl
  | cons op r ih =>
    intro g
    have hstep : applyOps g (op :: r) = applyOps (applyOp g op) r := rfl
    rw [hstep, ih (applyOp g op)]
    cases op with
    | addNode w =>
      have h1 : node_count ((add_node g w).1) = node_count g + 1 := by
        show (g.nodes ++ [(⟨w, none, none⟩ : ANode N)]).length = g.nodes.length + 1
        simp
      have h2 : edge_count ((add_node g w).1) = edge_count g := rfl
      show countsAfter (node_count ((add_node g w).1), edge_count ((add_node g w).1)) r
        = countsAfter (node_count g + 1, edge_count g) r
      rw [h1, h2]
    | addEdge s t w =>
      obtain ⟨h1, h2⟩ := counts_applyOp_addEdge g s t w
      rw [h1, h2]
      rfl
    | clearOp => rfl

theorem countsAfter_append {N E : Type} (a b : List (Op N E)) :
    ∀ p : Nat × Nat, countsAfter p (a ++ b) = countsAfter (countsAfter p a) b := by
  induction a with
  | nil => exact fun p => rfl
  | cons op r ih =>
    intro p
    cases op with
    | addNode w => exact ih _
    | addEdge s t w => exact ih _
    | clearOp => exact ih _

theorem countsAfter_foldl_slc {N E : Type} (ops : List (Op N E)) :
    ∀ (acc : List (Op N E)) (p : Nat × Nat), countsAfter (0, 0) acc = p →
      countsAfter (0, 0) (ops.foldl slcStep acc) = countsAfter p ops := by
  induction ops with
  | nil => intro acc p h; exact h
  | cons op r ih =>
    intro acc p h
    cases op with
    | addNode w =>
      show countsAfter (0, 0) (r.foldl slcStep (acc ++ [Op.addNode w]))
        = countsAfter (p.1 + 1, p.2) r
      refine ih _ _ ?_
      rw [countsAfter_append, h]
      rfl
    | addEdge s t w =>
      show countsAfter (0, 0) (r.foldl slcStep (acc ++ [Op.addEdge s t w]))
        = countsAfter (p.1, if s < p.1 ∧ t < p.1 then p.2 + 1 else p.2) r
      refine ih _ _ ?_
      rw [countsAfter_append, h]
      rfl
    | clearOp =>
      show countsAfter (0, 0) (r.foldl slcStep []) = countsAfter (0, 0) r
      exact ih [] (0, 0) rfl

/-- C8 counterexample: the single-call sequence `[add_edge 0 0 w]` on the empty
graph issues one `add_edge` call since the last `clear`, but the call fails
(node 0 does not exist) and `edge_count()` stays 0, not 1: `edge_count()` does
not equal the number of `add_edge` calls issued. -/
theorem edge_count_ignores_failed_add_edge :
    edge_count (applyOps (emptyGraph : AGraph Nat Nat) [Op.addEdge 0 0 0]) = 0 ∧
    countAddEdgeCalls (sinceLastClear ([Op.addEdge 0 0 0] : List (Op Nat Nat))) = 1 ∧
    edge_count (applyOps (emptyGraph : AGraph Nat Nat) [Op.addEdge 0 0 0])
      ≠ countAddEdgeCalls (sinceLastClear ([Op.addEdge 0 0 0] : List (Op Nat Nat))) := by
  refine ⟨by decide, by decide, by decide⟩

/-- C8 (amended): for every sequence of `add_node`, `add_edge` and `clear`
calls starting from the empty graph, `node_count()` equals the number of
`add_node` calls issued since the last `clear()` and `edge_count()` equals the
number of `add_edge` calls issued since the last `clear()` that succeeded (both
endpoints referencing existing nodes); `countsAfter` computes exactly these two
counters over the suffix of calls since the last `clear`. -/
theorem counts_equal_calls_since_last_clear {N E : Type} (ops : List (Op N E)) :
    (node_count (applyOps emptyGraph ops), edge_count (applyOps emptyGraph ops))
      = countsAfter (0, 0) (sinceLastClear ops) := by
  rw [counts_applyOps ops emptyGraph]
  exact (countsAfter_foldl_slc ops [] (0, 0) rfl).symm

/-- C7: `add_edge(source, target, weight)` fails with `IndexOutOfRange`
whenever `source` or `target` does not reference an existing node; when both
reference existing nodes it succeeds and returns the new edge's index (the
current `edge_count`). -/
theorem add_edge_checks_endpoints {N E : Type} (g : AGraph N E) (s t : Nat) (w : E) :
    (¬(s < node_count g ∧ t < node_count g) →
      add_edge g s t w = .error .indexOutOfRange) ∧
    (s < node_count g → t < node_count g →
      ∃ g2, add_edge g s t w = .ok (g2, edge_count g)) := by
  constructor
  · intro hc
    unfold node_count at hc
    unfold add_edge
    rw [dif_neg hc]
  · intro hs ht
    unfold node_count at hs ht
    unfold add_edge
    rw [dif_pos (And.intro hs ht)]
    by_cases hst : s = t
    · rw [if_pos hst]
      exact ⟨_, rfl⟩
    · rw [if_neg hst]
      exact ⟨_, rfl⟩

/-- Witness for C7: on the two-node graph, `add_edge 5 0` fails with
`IndexOutOfRange` and `add_edge 0 1` succeeds returning edge index
`edge_count` (= 0). -/
theorem add_edge_checks_endpoints_witness :
    add_edge gTwo 5 0 (7 : Nat) = .error .indexOutOfRange ∧
    ∃ g2, add_edge gTwo 0 1 (7 : Nat) = .ok (g2, edge_count gTwo) :=
  ⟨(add_edge_checks_endpoints gTwo 5 0 7).1 (by decide),
   (add_edge_checks_endpoints gTwo 0 1 7).2 (by decide) (by decide)⟩

/-- C9: immediately after `clear()`, `node_count()` and `edge_count()` are 0,
and every node or edge index (in particular any index obtained before the
`clear`) subsequently used against the graph fails with `IndexOutOfRange`. -/
theorem clear_resets_and_invalidates {N E : Type} (g : AGraph N E) :
    node_count (clear g) = 0 ∧ edge_count (clear g) = 0 ∧
    ∀ ix : Nat, node_weight (clear g) ix = .error .indexOutOfRange ∧
      edge_weight (clear g) ix = .error .indexOutOfRange := by
  refine ⟨rfl, rfl, fun ix => ⟨?_, ?_⟩⟩
  · show node_weight (⟨[], []⟩ : AGraph N E) ix = _
    unfold node_weight
    rw [List.get?_eq_none.mpr (Nat.zero_le ix)]
  · show edge_weight (⟨[], []⟩ : AGraph N E) ix = _
    unfold edge_weight
    rw [List.get?_eq_none.mpr (Nat.zero_le ix)]

end Arena

namespace HashGraph

/-- C2 counterexample: on the 8-node scenario graph, `BFS` from key 1 records
distance 1 for key 0 (the edge (0,1) is walked directly), not distance 2 as
claimed; the repository's own test expects 1 as well. -/
theorem bfs_scenario_node0_distance :
    bfsC2dist.map (fun d => Assoc.alookup d 0) = some (some 1) ∧
    bfsC2dist.map (fun d => Assoc.alookup d 0) ≠ some (some 2) := by
  refine ⟨by decide, by decide⟩

/-- C2 (amended): on the 8-node scenario graph with undirected edges
(0,1),(0,4),(1,5),(2,3),(2,5),(2,6),(3,6),(3,7),(5,6),(6,7), `BFS` from key 1
returns the distance map 0 ↦ 1, 1 ↦ 0, 2 ↦ 2, 3 ↦ 3, 4 ↦ 2, 5 ↦ 1, 6 ↦ 2,
7 ↦ 3 (the claim's value for key 0 corrected from 2 to 1). -/
theorem bfs_scenario_distances :
    bfsC2dist.map (fun d =>
      [Assoc.alookup d 0, Assoc.alookup d 1, Assoc.alookup d 2, Assoc.alookup d 3,
       Assoc.alookup d 4, Assoc.alookup d 5, Assoc.alookup d 6, Assoc.alookup d 7])
    = some [some 1, some 0, some 2, some 3, some 2, some 1, some 2, some 3] := by
  decide

end HashGraph

namespace Dfs

/-- C3 (code evaluated at the failing input): on a one-node graph with a
visitor that answers `Break 42` to every event, `depth_first_search` delivers
no event at all — `visit` returns `false` on the first reach of node 0 because
the `discovered` map starts empty, so `dfs_visitor` exits before emitting
`Discover`; the visitor is never invoked, no `Break` can be produced, and the
C++ function returns `void`, so no break value can reach the caller. -/
theorem dfs_break_never_delivers :
    depth_first_search gOne 0 (fun _ => ControlFlow.Break (42 : Nat)) = [] := by
  decide

/-- C4 (code evaluated at the failing input): on a one-node graph, node 0 is
reached for the first time by `depth_first_search`, yet no `Discover` event is
emitted (the trace is empty): `visit`'s test is inverted, returning `false`
exactly when the node is not yet in the map, i.e. on first reach. -/
theorem dfs_first_reach_no_discover :
    depth_first_search gOne 0 (fun _ => (ControlFlow.Continue : ControlFlow Nat)) = [] := by
  decide

end Dfs

namespace ListGraph

/-- C5 (code evaluated at the failing input): on the directed graph with the
single edge 0 → 1 and the constant weight function w = 1, `dijkstra` from
vertex 0 leaves vertex 1 at distance 0 — not w × (BFS distance) = 1 — because
the relaxation test reads the missing entry `distance[it]` through
`std::map::operator[]`, which value-initializes it to 0, and `new_cost = 1 < 0`
is false, so no edge is ever relaxed. -/
theorem dijkstra_unit_weight_no_relaxation :
    dijkstra gD (.pos 0) (fun _ _ => (1 : Int)) 10
      = ([(LIter.pos 0, 0), (LIter.pos 1, 0)], [(LIter.pos 0, LIter.endIt)]) ∧
    Assoc.alookup (dijkstra gD (.pos 0) (fun _ _ => (1 : Int)) 10).1 (.pos 1)
      = some 0 ∧
    (0 : Int) ≠ 1 * 1 := by
  refine ⟨by decide, by decide, by decide⟩

/-- C6 counterexample: on the directed graph with the single edge 0 → 1 and the
weight function constantly −1, `dijkstra` performs no validation and returns
distance and parent maps computed from the negative cost (distance −1, parent
vertex 0 for vertex 1) instead of rejecting with a `NegativeWeight` error — no
error channel exists in its return type. -/
theorem dijkstra_negative_weight_returns_maps :
    dijkstra gD (.pos 0) (fun _ _ => (-1 : Int)) 10
      = ([(LIter.pos 0, 0), (LIter.pos 1, -1)],
         [(LIter.pos 0, LIter.endIt), (LIter.pos 1, LIter.pos 0)]) := by
  decide

/-- C6 (amended): `dijkstra` never validates the weight function; a negative
cost flows into the returned maps — at the failing input, vertex 1 ends with
distance −1 and parent vertex 0, both computed from the negative cost. -/
theorem dijkstra_negative_weight_distances :
    Assoc.alookup (dijkstra gD (.pos 0) (fun _ _ => (-1 : Int)) 10).1 (.pos 1)
      = some (-1) ∧
    Assoc.alookup (dijkstra gD (.pos 0) (fun _ _ => (-1 : Int)) 10).2 (.pos 1)
      = some (.pos 0) := by
  refine ⟨by decide, by decide⟩

/-- C10: in the linked-list graph, `insert` and `emplace` return the
past-the-end iterator `end()` rather than an iterator to the newly inserted
vertex: the returned handle dereferences to nothing, while the new vertex lives
at the last position of the vertex list, so the handle returned to the caller
never identifies the element that was just inserted. -/
theorem insert_emplace_return_end {T : Type} (g : GraphLL T) (v : T) :
    (insert g v).2 = LIter.endIt ∧
    (emplace g v).2 = LIter.endIt ∧
    deref (insert g v).1 (insert g v).2 = none ∧
    deref (emplace g v).1 (emplace g v).2 = none ∧
    deref (insert g v).1 (LIter.pos g.vertices.length) = some v ∧
    (insert g v).2 ≠ LIter.pos g.vertices.length := by
  refine ⟨rfl, rfl, rfl, rfl, ?_, by intro h; exact LIter.noConfusion h⟩
  show ((g.vertices ++ [(v, [])]).get? g.vertices.length).map
    (fun p : T × List Nat => p.1) = some v
  rw [List.get?_concat_length]
  rfl

end ListGraph
